import Mathlib

/-!
Shallow embedding of the cloudfn helper library (Go packages `fnerrors` and
`fnhttp`) and verification of its specification claims.

Go strings are modelled as Lean `String` (sequences of Unicode scalar values);
Go `map[string]struct{}` as a duplicate-free `List String` of keys; HTTP
headers as association lists of key/value pairs.  Fallible operations return
`Option`/`Except`; the single `panic` site in the code is modelled as an
explicit result constructor.
-/

set_option autoImplicit false

namespace Cloudfn

/-- Whether `sub` occurs as a contiguous run starting at some position of
the second list. -/
def listContains (sub : List Char) : List Char → Bool
  | [] => sub.isEmpty
  | c :: rest => sub.isPrefixOf (c :: rest) || listContains sub rest

/-- Go `strings.Contains s sub`: whether `sub` occurs as a contiguous
substring of `s`. -/
def strContains (s sub : String) : Bool :=
  listContains sub.toList s.toList

/-- A lowercase hexadecimal digit character for `n < 16`. -/
def hexDig (n : Nat) : Char :=
  if n < 10 then Char.ofNat (48 + n) else Char.ofNat (87 + n)

/-- Go `strconv.Quote` (the `%q` verb) on a single character, covering the
escape forms Go uses for ASCII input; printable non-ASCII runes are passed
through as Go does for runes satisfying `unicode.IsPrint` (the full
`unicode.IsPrint` table is not modelled; field names in this library are
ASCII identifiers). -/
def goQuoteChar (c : Char) : List Char :=
  if c = '"' then ['\\', '"']
  else if c = '\\' then ['\\', '\\']
  else if c = Char.ofNat 7 then ['\\', 'a']
  else if c = Char.ofNat 8 then ['\\', 'b']
  else if c = Char.ofNat 12 then ['\\', 'f']
  else if c = '\n' then ['\\', 'n']
  else if c = '\r' then ['\\', 'r']
  else if c = '\t' then ['\\', 't']
  else if c = Char.ofNat 11 then ['\\', 'v']
  else if c.toNat < 0x20 ∨ c.toNat = 0x7f then
    ['\\', 'x', hexDig (c.toNat / 16 % 16), hexDig (c.toNat % 16)]
  else [c]

/-- Go `strconv.Quote` of a string: double quotes around the escaped body. -/
def goQuote (s : String) : String :=
  "\"" ++ String.mk ((s.toList.map goQuoteChar).flatten) ++ "\""

/-- One struct field as seen by the one-level reflective scan in
`checkRequiredFields`: the Go field name, the raw `json` and `cloudfn` struct
tags, and whether the field's runtime value `IsZero`. -/
structure Field where
  name : String
  jsonTag : String
  cloudfnTag : String
  isZero : Bool
deriving Repr, DecidableEq

/-- The alias used in the error message of `checkRequiredFields`: the Go
field name, replaced by the first comma-separated component of the `json`
tag when that tag is non-empty. -/
def fieldAlias (f : Field) : String :=
  if f.jsonTag = "" then f.name else ((f.jsonTag.splitOn ",").headD "")

/-- The message built by `fmt.Errorf("missing required field: %q", name)`. -/
def requiredFieldErr (f : Field) : String :=
  "missing required field: " ++ goQuote (fieldAlias f)

/-- Whether the field's `cloudfn` tag marks it required:
`strings.Contains(cloudfnTags, "required")`. -/
def isRequiredField (f : Field) : Bool :=
  strContains f.cloudfnTag "required"

/-- `checkRequiredFields` from `fnhttp.go`: scan the struct's fields in
order; on the first field whose `cloudfn` tag contains `required` and whose
value is zero, return the error naming that field; otherwise no error.
`none` models a nil error, `some msg` an error with text `msg`. -/
def checkRequiredFields : List Field → Option String
  | [] => none
  | f :: rest =>
    if isRequiredField f && f.isZero then
      some (requiredFieldErr f)
    else
      checkRequiredFields rest

theorem checkRequiredFields_eq_find (fields : List Field) :
    checkRequiredFields fields =
      (fields.find? (fun f => isRequiredField f && f.isZero)).map requiredFieldErr := by
  induction fields with
  | nil => rfl
  | cons f rest ih =>
    by_cases h : (isRequiredField f && f.isZero) = true
    · simp [checkRequiredFields, List.find?, h]
    · simp [checkRequiredFields, List.find?, h, ih]

/-- C1: one-level required-field validation.  If every field whose `cloudfn`
tag contains `required` holds a non-zero value, `checkRequiredFields` returns
no error; if some required field is at its zero value, it returns an error
naming (the first) such field, using the first comma-separated component of
its `json` tag when that tag is declared and the Go field name otherwise. -/
theorem checkRequiredFields_spec (fields : List Field) :
    ((∀ f ∈ fields, isRequiredField f = true → f.isZero = false) →
      checkRequiredFields fields = none)
    ∧ ((∃ f ∈ fields, isRequiredField f = true ∧ f.isZero = true) →
      ∃ g ∈ fields, isRequiredField g = true ∧ g.isZero = true ∧
        checkRequiredFields fields =
          some ("missing required field: " ++
            goQuote (if g.jsonTag = "" then g.name
                     else ((g.jsonTag.splitOn ",").headD "")))) := by
  constructor
  · intro h
    rw [checkRequiredFields_eq_find]
    have : fields.find? (fun f => isRequiredField f && f.isZero) = none := by
      rw [List.find?_eq_none]
      intro f hf
      simp only [Bool.and_eq_true, not_and]
      intro hreq
      simp [h f hf hreq]
    simp [this]
  · induction fields with
    | nil => intro h; simp at h
    | cons f rest ih =>
      intro h
      by_cases hp : (isRequiredField f && f.isZero) = true
      · rw [Bool.and_eq_true] at hp
        refine ⟨f, List.mem_cons_self f rest, hp.1, hp.2, ?_⟩
        simp [checkRequiredFields, hp.1, hp.2, requiredFieldErr, fieldAlias]
      · have hpf : (isRequiredField f && f.isZero) = false := by
          revert hp; cases h' : (isRequiredField f && f.isZero) <;> simp
        have hf : ¬(isRequiredField f = true ∧ f.isZero = true) := by
          intro hc
          rw [hc.1, hc.2] at hpf
          simp at hpf
        have hrest : ∃ x ∈ rest, isRequiredField x = true ∧ x.isZero = true := by
          obtain ⟨x, hx, hxp⟩ := h
          rcases List.mem_cons.mp hx with rfl | hx'
          · exact absurd hxp hf
          · exact ⟨x, hx', hxp⟩
        obtain ⟨g, hg, hg1, hg2, hg3⟩ := ih hrest
        refine ⟨g, List.mem_cons_of_mem _ hg, hg1, hg2, ?_⟩
        rw [show checkRequiredFields (f :: rest) = checkRequiredFields rest by
          simp [checkRequiredFields, hpf]]
        exact hg3

/-- Witness for C1 at concrete inputs: a populated required field passes and
a zero-valued required field is reported under its json alias. -/
theorem checkRequiredFields_spec_witness :
    (checkRequiredFields [⟨"Campaign", "campaign", "required", false⟩] = none)
    ∧ (∃ g ∈ ([⟨"Campaign", "campaign", "required", true⟩] : List Field),
        isRequiredField g = true ∧ g.isZero = true ∧
        checkRequiredFields [⟨"Campaign", "campaign", "required", true⟩] =
          some ("missing required field: " ++
            goQuote (if g.jsonTag = "" then g.name
                     else ((g.jsonTag.splitOn ",").headD "")))) :=
  ⟨(checkRequiredFields_spec [⟨"Campaign", "campaign", "required", false⟩]).1 (by decide),
   (checkRequiredFields_spec [⟨"Campaign", "campaign", "required", true⟩]).2
     ⟨⟨"Campaign", "campaign", "required", true⟩, by decide, by decide, by decide⟩⟩

/-! ## The fnerrors package

The embedding follows the revision of `fnerrors` that `fnhttp.go` compiles
against (the one declaring `NewBadRequest` and `Error.JSONResponse`). -/

/-- `fnerrors.Error`: HTTP status, client-facing message and server-side
detail.  The functional options (`Detail`) are subsumed by the `detail`
field; no call site in the repository passes any option, and `New`/`newHTTP`
leave the detail empty. -/
structure Error where
  status : Int
  msg : String
  detail : String
deriving Repr, DecidableEq

/-- A Go `error` value at the points this library inspects one: either a
`*fnerrors.Error`, or any other error of which only the `Error()` text is
observable. -/
inductive GoError where
  | fnError (e : Error)
  | generic (msg : String)
deriving Repr, DecidableEq

/-- Go `err.Error()`: for `*fnerrors.Error` this is the `msg` field. -/
def errText : GoError → String
  | .fnError e => e.msg
  | .generic m => m

/-- `fnerrors.New` without options. -/
def New (status : Int) (msg : String) : GoError :=
  .fnError { status := status, msg := msg, detail := "" }

/-- `fnerrors.newHTTP`: when a cause is present its text is appended to the
message as `"<msg>: <cause>"`. -/
def newHTTP (status : Int) (msg : String) (cause : Option String) : GoError :=
  match cause with
  | some t => .fnError { status := status, msg := msg ++ ": " ++ t, detail := "" }
  | none => .fnError { status := status, msg := msg, detail := "" }

/-- `fnerrors.NewBadRequest`. -/
def NewBadRequest (msg : String) (cause : Option String) : GoError :=
  newHTTP 400 msg cause

/-- `fnerrors.Wrap`: a `*fnerrors.Error` is rebuilt via `New` with the same
status and the prefixed message; any other error becomes a generic error
with the prefixed message (`fmt.Errorf`). -/
def Wrap (msg : String) (err : GoError) : GoError :=
  match err with
  | .fnError e => New e.status (msg ++ ": " ++ errText err)
  | .generic m => .generic (msg ++ ": " ++ m)

/-- Whether `s` starts with `pre` (Go `strings.HasPrefix`), stated on the
character lists. -/
def strHasPrefix (s pre : String) : Bool :=
  pre.toList.isPrefixOf s.toList

theorem isPrefixOf_append_list (l t : List Char) : l.isPrefixOf (l ++ t) = true := by
  induction l with
  | nil => simp [List.isPrefixOf]
  | cons c l ih => simp [List.isPrefixOf, ih]

theorem strHasPrefix_append (pre t : String) : strHasPrefix (pre ++ t) pre = true := by
  unfold strHasPrefix
  have h : (pre ++ t).toList = pre.toList ++ t.toList := by
    simp [String.toList]
  rw [h]
  exact isPrefixOf_append_list _ _

/-- `fnerrors.GetDetail`. -/
def GetDetail (err : GoError) : String :=
  match err with
  | .fnError e => e.detail
  | .generic _ => ""

/-- The status the response boundary uses for an error: the carried status
of a `*fnerrors.Error`, and 500 otherwise (see `WriteErr`). -/
def HTTPStatusOf (err : GoError) : Int :=
  match err with
  | .fnError e => e.status
  | .generic _ => 500

theorem wrap_fnError_foldl (msgs : List String) (e : Error) :
    ∃ e' : Error, msgs.foldl (fun acc m => Wrap m acc) (.fnError e) = .fnError e'
      ∧ e'.status = e.status := by
  induction msgs generalizing e with
  | nil => exact ⟨e, rfl, rfl⟩
  | cons m rest ih =>
    obtain ⟨e', h1, h2⟩ := ih { status := e.status, msg := m ++ ": " ++ e.msg, detail := "" }
    exact ⟨e', h1, h2⟩

/-- C3: `Wrap` preserves the status of an AppError and prefixes its message;
on a non-AppError it yields a generic (non-AppError) error with the message
prefixed; consequently folding `Wrap` any number of times over an AppError
never changes its status. -/
theorem Wrap_spec (m : String) (err : GoError) :
    (∀ e : Error, err = .fnError e →
      Wrap m err = .fnError { status := e.status, msg := m ++ ": " ++ e.msg, detail := "" }
      ∧ strHasPrefix (m ++ ": " ++ e.msg) m = true)
    ∧ (∀ t : String, err = .generic t →
      Wrap m err = .generic (m ++ ": " ++ t)
      ∧ strHasPrefix (m ++ ": " ++ t) m = true)
    ∧ (∀ (msgs : List String) (e : Error), err = .fnError e →
      HTTPStatusOf (msgs.foldl (fun acc s => Wrap s acc) err) = e.status) := by
  refine ⟨?_, ?_, ?_⟩
  · rintro e rfl
    refine ⟨rfl, ?_⟩
    rw [String.append_assoc]
    exact strHasPrefix_append m _
  · rintro t rfl
    refine ⟨rfl, ?_⟩
    rw [String.append_assoc]
    exact strHasPrefix_append m _
  · rintro msgs e rfl
    obtain ⟨e', h1, h2⟩ := wrap_fnError_foldl msgs e
    rw [h1, HTTPStatusOf, h2]

/-- Witness for C3 at concrete errors. -/
theorem Wrap_spec_witness :
    (Wrap "ctx" (GoError.fnError ⟨404, "nf", ""⟩)
        = .fnError { status := 404, msg := "ctx" ++ ": " ++ "nf", detail := "" }
      ∧ strHasPrefix ("ctx" ++ ": " ++ "nf") "ctx" = true)
    ∧ (Wrap "ctx" (GoError.generic "boom") = .generic ("ctx" ++ ": " ++ "boom")
      ∧ strHasPrefix ("ctx" ++ ": " ++ "boom") "ctx" = true)
    ∧ HTTPStatusOf (["a", "b"].foldl (fun acc s => Wrap s acc)
        (GoError.fnError ⟨404, "nf", ""⟩)) = 404 :=
  ⟨(Wrap_spec "ctx" (GoError.fnError ⟨404, "nf", ""⟩)).1 ⟨404, "nf", ""⟩ rfl,
   (Wrap_spec "ctx" (GoError.generic "boom")).2.1 "boom" rfl,
   (Wrap_spec "ctx" (GoError.fnError ⟨404, "nf", ""⟩)).2.2 ["a", "b"] ⟨404, "nf", ""⟩ rfl⟩

/-! ## JSON error envelope

`Error.JSONResponse` marshals `HTTPResponse\x7bError: HTTPError\x7bMessage: msg\x7d\x7d`
with `encoding/json`.  The encoder below reproduces `encoding/json`'s string
escaping with its default HTML escaping (`"`, `\`, `\n`, `\r`, `\t`, other
control characters as `\u00xx`, and `<`, `>`, `&`, U+2028, U+2029 as `\uxxxx`).
The parser models a client deserializing the envelope. -/

/-- The struct `HTTPError` with its `json:"message"` tag. -/
structure HTTPError where
  message : String
deriving Repr, DecidableEq

/-- The struct `HTTPResponse` with its `json:"error"` tag. -/
structure HTTPResponse where
  error : HTTPError
deriving Repr, DecidableEq

/-- Four lowercase hex digits for `n < 0x10000`. -/
def hex4 (n : Nat) : List Char :=
  [hexDig (n / 4096 % 16), hexDig (n / 256 % 16), hexDig (n / 16 % 16), hexDig (n % 16)]

/-- `encoding/json` escaping of one character (default HTML escaping on). -/
def jsonEscapeChar (c : Char) : List Char :=
  if c = '"' then ['\\', '"']
  else if c = '\\' then ['\\', '\\']
  else if c = '\n' then ['\\', 'n']
  else if c = '\r' then ['\\', 'r']
  else if c = '\t' then ['\\', 't']
  else if c.toNat < 0x20 ∨ c = '<' ∨ c = '>' ∨ c = '&'
      ∨ c.toNat = 0x2028 ∨ c.toNat = 0x2029 then
    '\\' :: 'u' :: hex4 c.toNat
  else [c]

/-- `encoding/json` escaping of a character sequence. -/
def jsonEscape (l : List Char) : List Char :=
  (l.map jsonEscapeChar).flatten

/-- A JSON string literal for `s`. -/
def jsonQuote (s : String) : String :=
  "\"" ++ String.mk (jsonEscape s.toList) ++ "\""

/-- `json.Marshal` of an `HTTPResponse`.  Go's `Marshal` cannot fail on this
struct (a string field always encodes), so the model is total; the `Option`
mirrors the `(b, err)` pair of the source. -/
def jsonMarshalHTTPResponse (res : HTTPResponse) : Option String :=
  some ("\x7b\"error\":\x7b\"message\":" ++ jsonQuote res.error.message ++ "\x7d\x7d")

/-- `Error.JSONResponse`: marshal the envelope, falling back to the raw
message if marshalling reported an error. -/
def JSONResponse (e : Error) : String :=
  match jsonMarshalHTTPResponse { error := { message := e.msg } } with
  | some b => b
  | none => e.msg

/-- Value of one hex digit character, any case. -/
def parseHexDigit (c : Char) : Option Nat :=
  if 48 ≤ c.toNat ∧ c.toNat ≤ 57 then some (c.toNat - 48)
  else if 97 ≤ c.toNat ∧ c.toNat ≤ 102 then some (c.toNat - 87)
  else if 65 ≤ c.toNat ∧ c.toNat ≤ 70 then some (c.toNat - 55)
  else none

/-- Decode one short JSON escape. -/
def jsonUnescapeCode (e : Char) : Option Char :=
  if e = '"' then some '"'
  else if e = '\\' then some '\\'
  else if e = '/' then some '/'
  else if e = 'b' then some (Char.ofNat 8)
  else if e = 'f' then some (Char.ofNat 12)
  else if e = 'n' then some '\n'
  else if e = 'r' then some '\r'
  else if e = 't' then some '\t'
  else none

/-- Decode one JSON escape sequence (the part after the backslash),
returning the decoded character and the remaining input.  A `\uXXXX` escape
decodes to the corresponding scalar value; surrogate halves are rejected
(the encoder never emits them, so no surrogate-pair recombination is needed
for the envelopes parsed here). -/
def jsonEscDecode : List Char → Option (Char × List Char)
  | 'u' :: h1 :: h2 :: h3 :: h4 :: rest =>
    match parseHexDigit h1, parseHexDigit h2, parseHexDigit h3, parseHexDigit h4 with
    | some d1, some d2, some d3, some d4 =>
      let n := d1 * 4096 + d2 * 256 + d3 * 16 + d4
      if n < 0xd800 ∨ (0xdfff < n ∧ n < 0x110000) then some (Char.ofNat n, rest)
      else none
    | _, _, _, _ => none
  | e :: rest => (jsonUnescapeCode e).map fun d => (d, rest)
  | [] => none

theorem jsonEscDecode_length {l : List Char} {d : Char} {r : List Char}
    (h : jsonEscDecode l = some (d, r)) : r.length < l.length := by
  rw [jsonEscDecode.eq_def] at h
  split at h
  · split at h
    · dsimp only [] at h
      split at h
      · simp only [Option.some.injEq, Prod.mk.injEq] at h
        obtain ⟨-, rfl⟩ := h
        simp only [List.length_cons]
        omega
      · exact absurd h (by simp)
    · exact absurd h (by simp)
  · simp only [Option.map_eq_some'] at h
    obtain ⟨d', hd', hpair⟩ := h
    simp only [Prod.mk.injEq] at hpair
    obtain ⟨-, rfl⟩ := hpair
    simp only [List.length_cons]
    omega
  · exact absurd h (by simp)

/-- Parse the body of a JSON string up to and including its closing quote,
returning the decoded characters and the remaining input. -/
def jsonStringRest (l : List Char) : Option (List Char × List Char) :=
  match l with
  | [] => none
  | c :: rest =>
    if c = '"' then some ([], rest)
    else if c = '\\' then
      match hmatch : jsonEscDecode rest with
      | some dr => (jsonStringRest dr.2).map fun p => (dr.1 :: p.1, p.2)
      | none => none
    else (jsonStringRest rest).map fun p => (c :: p.1, p.2)
termination_by l.length
decreasing_by
  · simp only [List.length_cons]
    have := jsonEscDecode_length hmatch
    omega
  · simp

/-- The fixed opening of the envelope, `\x7b"error":\x7b"message":"`. -/
def envOpen : List Char := ("\x7b\"error\":\x7b\"message\":\"").toList

/-- The fixed closing of the envelope, `\x7d\x7d`. -/
def envClose : List Char := ("\x7d\x7d").toList

/-- A client deserializing the error envelope: accept exactly
`\x7b"error":\x7b"message":"…"\x7d\x7d` and return the decoded message. -/
def parseEnvelope (s : String) : Option String :=
  let l := s.toList
  if envOpen.isPrefixOf l then
    match jsonStringRest (l.drop envOpen.length) with
    | some (content, rem) => if rem = envClose then some (String.mk content) else none
    | none => none
  else none

theorem parseHexDigit_hexDig : ∀ d < 16, parseHexDigit (hexDig d) = some d := by decide

theorem toList_append_str (a b : String) : (a ++ b).toList = a.toList ++ b.toList := rfl

theorem jsonStringRest_quote (rest : List Char) :
    jsonStringRest ('"' :: rest) = some ([], rest) := by
  rw [jsonStringRest, if_pos rfl]

theorem jsonEscDecode_quote (tail : List Char) :
    jsonEscDecode ('"' :: tail) = some ('"', tail) := rfl

theorem jsonEscDecode_n (tail : List Char) :
    jsonEscDecode ('n' :: tail) = some ('\n', tail) := rfl

theorem jsonEscDecode_u (h1 h2 h3 h4 : Char) (rest : List Char) :
    jsonEscDecode ('u' :: h1 :: h2 :: h3 :: h4 :: rest) =
      match parseHexDigit h1, parseHexDigit h2, parseHexDigit h3, parseHexDigit h4 with
      | some d1, some d2, some d3, some d4 =>
        let n := d1 * 4096 + d2 * 256 + d3 * 16 + d4
        if n < 0xd800 ∨ (0xdfff < n ∧ n < 0x110000) then some (Char.ofNat n, rest)
        else none
      | _, _, _, _ => none := rfl

theorem jsonStringRest_esc (rest : List Char) :
    jsonStringRest ('\\' :: rest) =
      match jsonEscDecode rest with
      | some dr => (jsonStringRest dr.2).map fun p => (dr.1 :: p.1, p.2)
      | none => none := by
  rw [jsonStringRest, if_neg (by decide), if_pos rfl]
  split
  · next dr heq => rw [heq]
  · next heq => rw [heq]

theorem jsonStringRest_raw (c : Char) (rest : List Char) (h1 : ¬c = '"') (h2 : ¬c = '\\') :
    jsonStringRest (c :: rest) = (jsonStringRest rest).map fun p => (c :: p.1, p.2) := by
  rw [jsonStringRest, if_neg h1, if_neg h2]

theorem jsonStringRest_escapeChar (c : Char) (tail : List Char) :
    jsonStringRest (jsonEscapeChar c ++ tail) =
      (jsonStringRest tail).map fun p => (c :: p.1, p.2) := by
  by_cases h1 : c = '"'
  · subst h1
    rw [show jsonEscapeChar '"' = ['\\', '"'] from rfl, List.cons_append, List.cons_append,
      List.nil_append, jsonStringRest_esc, jsonEscDecode_quote]
  by_cases h2 : c = '\\'
  · subst h2
    rw [show jsonEscapeChar '\\' = ['\\', '\\'] from rfl, List.cons_append, List.cons_append,
      List.nil_append, jsonStringRest_esc,
      show jsonEscDecode ('\\' :: tail) = some ('\\', tail) from rfl]
  by_cases h3 : c = '\n'
  · subst h3
    rw [show jsonEscapeChar '\n' = ['\\', 'n'] from rfl, List.cons_append, List.cons_append,
      List.nil_append, jsonStringRest_esc, jsonEscDecode_n]
  by_cases h4 : c = '\r'
  · subst h4
    rw [show jsonEscapeChar '\r' = ['\\', 'r'] from rfl, List.cons_append, List.cons_append,
      List.nil_append, jsonStringRest_esc,
      show jsonEscDecode ('r' :: tail) = some ('\r', tail) from rfl]
  by_cases h5 : c = '\t'
  · subst h5
    rw [show jsonEscapeChar '\t' = ['\\', 't'] from rfl, List.cons_append, List.cons_append,
      List.nil_append, jsonStringRest_esc,
      show jsonEscDecode ('t' :: tail) = some ('\t', tail) from rfl]
  by_cases h6 : c.toNat < 0x20 ∨ c = '<' ∨ c = '>' ∨ c = '&'
      ∨ c.toNat = 0x2028 ∨ c.toNat = 0x2029
  · have hesc : jsonEscapeChar c = '\\' :: 'u' :: hex4 c.toNat := by
      unfold jsonEscapeChar
      rw [if_neg h1, if_neg h2, if_neg h3, if_neg h4, if_neg h5, if_pos h6]
    have hn : c.toNat < 55296 := by
      rcases h6 with h | h | h | h | h | h
      · omega
      · subst h; decide
      · subst h; decide
      · subst h; decide
      · omega
      · omega
    have e1 := parseHexDigit_hexDig (c.toNat / 4096 % 16) (Nat.mod_lt _ (by norm_num))
    have e2 := parseHexDigit_hexDig (c.toNat / 256 % 16) (Nat.mod_lt _ (by norm_num))
    have e3 := parseHexDigit_hexDig (c.toNat / 16 % 16) (Nat.mod_lt _ (by norm_num))
    have e4 := parseHexDigit_hexDig (c.toNat % 16) (Nat.mod_lt _ (by norm_num))
    have hre : c.toNat / 4096 % 16 * 4096 + c.toNat / 256 % 16 * 256
        + c.toNat / 16 % 16 * 16 + c.toNat % 16 = c.toNat := by omega
    rw [hesc]
    rw [show ('\\' :: 'u' :: hex4 c.toNat) ++ tail
        = '\\' :: 'u' :: hexDig (c.toNat / 4096 % 16) :: hexDig (c.toNat / 256 % 16)
          :: hexDig (c.toNat / 16 % 16) :: hexDig (c.toNat % 16) :: tail by
      simp [hex4]]
    rw [jsonStringRest_esc, jsonEscDecode_u, e1, e2, e3, e4]
    dsimp only []
    rw [hre, if_pos (Or.inl hn), Char.ofNat_toNat]
  · have hesc : jsonEscapeChar c = [c] := by
      unfold jsonEscapeChar
      rw [if_neg h1, if_neg h2, if_neg h3, if_neg h4, if_neg h5, if_neg h6]
    rw [hesc, List.cons_append, List.nil_append, jsonStringRest_raw c tail h1 h2]

theorem jsonStringRest_jsonEscape (l rest : List Char) :
    jsonStringRest (jsonEscape l ++ '"' :: rest) = some (l, rest) := by
  induction l with
  | nil =>
    rw [show jsonEscape [] = [] from rfl, List.nil_append, jsonStringRest_quote]
  | cons c l ih =>
    rw [show jsonEscape (c :: l) = jsonEscapeChar c ++ jsonEscape l by simp [jsonEscape],
      List.append_assoc, jsonStringRest_escapeChar, ih]
    rfl

theorem parseEnvelope_marshal (msg : String) :
    parseEnvelope ("\x7b\"error\":\x7b\"message\":" ++ jsonQuote msg ++ "\x7d\x7d")
      = some msg := by
  have hlist : ("\x7b\"error\":\x7b\"message\":" ++ jsonQuote msg ++ "\x7d\x7d").toList
      = envOpen ++ (jsonEscape msg.toList ++ '"' :: envClose) := by
    rw [toList_append_str, toList_append_str, jsonQuote, toList_append_str, toList_append_str]
    rw [show (String.mk (jsonEscape msg.toList)).toList = jsonEscape msg.toList from rfl]
    rw [show envOpen = ("\x7b\"error\":\x7b\"message\":").toList ++ ("\"").toList by decide]
    rw [show ('"' :: envClose) = ("\"").toList ++ ("\x7d\x7d").toList by decide]
    simp
  unfold parseEnvelope
  simp only [hlist]
  rw [if_pos (isPrefixOf_append_list envOpen _)]
  rw [List.drop_left]
  rw [jsonStringRest_jsonEscape]
  simp only [if_pos rfl]
  rfl

/-- C7: for every AppError, `JSONResponse` yields a string that a client
deserializes back into an envelope whose `error.message` equals the original
message; the operation is total, with the fallback to the raw message
reserved for a marshalling failure that cannot occur for this struct. -/
theorem JSONResponse_roundtrip (e : Error) :
    parseEnvelope (JSONResponse e) = some e.msg := by
  unfold JSONResponse jsonMarshalHTTPResponse
  exact parseEnvelope_marshal e.msg

/-! ## HTTP model: headers, response writer, request -/

/-- HTTP headers as an association list. -/
def hset (hs : List (String × String)) (k v : String) : List (String × String) :=
  (hs.filter fun p => p.1 != k) ++ [(k, v)]

/-- Header lookup. -/
def hget (hs : List (String × String)) (k : String) : Option String :=
  (hs.find? fun p => p.1 == k).map Prod.snd

/-- Go `Header.Get`: the empty string when the header is absent. -/
def headerGet (hs : List (String × String)) (k : String) : String :=
  (hget hs k).getD ""

/-- A request body stream: remaining bytes, a pending underlying read error,
and whether it has been closed.  Reading a closed server request body fails
(`http.ErrBodyReadAfterClose`). -/
structure Body where
  data : String
  readErr : Option String
  closed : Bool
deriving Repr, DecidableEq

/-- `ioutil.ReadAll` on a body: fails if the body is closed or the
underlying stream errors; otherwise consumes and returns all bytes. -/
def ioReadAll (b : Body) : Except String (String × Body) :=
  if b.closed then .error "http: invalid Read on closed Body"
  else
    match b.readErr with
    | some e => .error e
    | none => .ok (b.data, { b with data := "" })

/-- `Close` on a body. -/
def closeBody (b : Body) : Body :=
  { b with closed := true }

/-- An inbound HTTP request: method, headers and body stream. -/
structure Request where
  method : String
  headers : List (String × String)
  body : Body
deriving Repr, DecidableEq

/-- An HTTP response writer: headers, the written status (at most one
`WriteHeader` takes effect) and the accumulated body. -/
structure ResponseWriter where
  headers : List (String × String)
  status : Option Int
  body : String
deriving Repr, DecidableEq

/-- `w.Header().Set(k, v)`. -/
def hsetW (w : ResponseWriter) (k v : String) : ResponseWriter :=
  { w with headers := hset w.headers k v }

/-- `w.WriteHeader(s)`: the first written status wins; later calls are
ignored (Go logs a superfluous-call warning). -/
def writeHeader (w : ResponseWriter) (s : Int) : ResponseWriter :=
  match w.status with
  | none => { w with status := some s }
  | some _ => w

/-- `fmt.Fprintf(w, "%v\n", msg)`. -/
def fprintLine (w : ResponseWriter) (msg : String) : ResponseWriter :=
  { w with body := w.body ++ msg ++ "\n" }

/-- `fnhttp.WriteErr`: default to status 500 and the raw error text; for a
`*fnerrors.Error` use its own status and its JSON envelope. -/
def WriteErr (w : ResponseWriter) (err : GoError) : ResponseWriter :=
  let msg := errText err
  let status : Int := 500
  let (status, msg) :=
    match err with
    | .fnError e => (e.status, JSONResponse e)
    | .generic _ => (status, msg)
  fprintLine (writeHeader w status) msg

/-! ## CORS middleware -/

/-- `fnhttp.FnHttper`: the configured allowed origins and the lazily built
origin cache (`map[string]struct{}`, modelled as its duplicate-free key
list; the nil map and the empty map coincide in this model). -/
structure FnHttper where
  CORSOrigins : List String
  corsOrigins : List String
deriving Repr, DecidableEq

/-- Insertion into the cache map: a set-semantics insert. -/
def mapInsert (m : List String) (k : String) : List String :=
  if m.contains k then m else m ++ [k]

/-- The `for _, allowedOrigin := range fn.CORSOrigins` loop of
`CORSMiddleware`: whenever a configured origin is a substring of the request
origin, select the request origin and memoize it in the cache. -/
def corsLoop (reqOrigin : String) :
    List String → String → List String → String × List String
  | [], origin, cache => (origin, cache)
  | a :: rest, origin, cache =>
    if strContains reqOrigin a then
      corsLoop reqOrigin rest reqOrigin (mapInsert cache reqOrigin)
    else
      corsLoop reqOrigin rest origin cache

/-- Outcome of `CORSMiddleware`: either the panic on an empty origin list
(with the writer untouched at that point), or the updated `FnHttper`, the
writer, and whether the request was an OPTIONS preflight. -/
inductive CORSResult where
  | panicked (msg : String) (w : ResponseWriter)
  | ok (fn : FnHttper) (w : ResponseWriter) (preflight : Bool)
deriving Repr, DecidableEq

/-- `fnhttp.CORSMiddleware`. -/
def CORSMiddleware (fn : FnHttper) (w : ResponseWriter) (r : Request) : CORSResult :=
  match fn.CORSOrigins with
  | [] => .panicked "fnhttp: missing allowed cors origins" w
  | first :: _ =>
    let reqOrigin := headerGet r.headers "Origin"
    let origin := first
    let origin := if fn.corsOrigins.contains reqOrigin then reqOrigin else origin
    let oc := corsLoop reqOrigin fn.CORSOrigins origin fn.corsOrigins
    let w := hsetW w "Access-Control-Allow-Credentials" "true"
    let w := hsetW w "Access-Control-Allow-Headers" "*"
    let w := hsetW w "Access-Control-Allow-Methods" "GET, POST, PUT, DELETE, PATCH, OPTIONS"
    let w := hsetW w "Access-Control-Allow-Origin" oc.1
    let w := hsetW w "Access-Control-Max-Age" "3600"
    let w := hsetW w "Vary" "Origin"
    let fn2 := { fn with corsOrigins := oc.2 }
    if r.method = "OPTIONS" then .ok fn2 (writeHeader w 204) true
    else .ok fn2 w false

/-- `fnhttp.HandleOptionsRequestAndCORS`. -/
def HandleOptionsRequestAndCORS (w : ResponseWriter) (r : Request) :
    ResponseWriter × Bool :=
  if r.method = "OPTIONS" then
    let w := hsetW w "Access-Control-Allow-Credentials" "true"
    let w := hsetW w "Access-Control-Allow-Headers" "*"
    let w := hsetW w "Access-Control-Allow-Methods" "*"
    let w := hsetW w "Access-Control-Allow-Origin" "*"
    let w := hsetW w "Access-Control-Max-Age" "3600"
    (writeHeader w 204, true)
  else
    let w := hsetW w "Access-Control-Allow-Credentials" "true"
    let w := hsetW w "Access-Control-Allow-Origin" "*"
    (w, false)

/-! ## Request body decoding -/

/-- The capabilities of a target payload type `α` as `GetPostData` sees it
through Go interfaces: an optional `encoding.BinaryUnmarshaler`
implementation, `json.Unmarshal` into the current value, and the reflective
view of the populated value's fields. -/
structure Codec (α : Type) where
  binaryUnmarshal : Option (String → α → Except String α)
  jsonUnmarshal : String → α → Except String α
  reflectFields : α → List Field

/-- `fnhttp.GetPostData`: read the whole body, reject an empty body,
re-buffer the bytes into the request, decode (binary if supported, JSON
otherwise) and run the required-field check.  Returns the request as left
behind (the deferred `Close` applies to the original body object), the
possibly updated target, and the error. -/
def GetPostData {α : Type} (c : Codec α) (r : Request) (v : α) :
    Request × α × Option GoError :=
  let body := r.body
  match ioReadAll body with
  | .error e =>
    ({ r with body := closeBody body }, v, some (NewBadRequest "read body" (some e)))
  | .ok (b, bodyAfter) =>
    if b.length = 0 then
      ({ r with body := closeBody bodyAfter }, v,
        some (NewBadRequest "bad request" (some "missing http body")))
    else
      let r2 : Request := { r with body := { data := b, readErr := none, closed := false } }
      let dec : Except GoError α :=
        match c.binaryUnmarshal with
        | some bu =>
          match bu b v with
          | .error e => .error (NewBadRequest "binary unmarshal" (some e))
          | .ok v2 => .ok v2
        | none =>
          match c.jsonUnmarshal b v with
          | .error e => .error (NewBadRequest "json decode" (some e))
          | .ok v2 => .ok v2
      match dec with
      | .error ge => (r2, v, some ge)
      | .ok v2 =>
        match checkRequiredFields (c.reflectFields v2) with
        | some m => (r2, v2, some (NewBadRequest "bad request" (some m)))
        | none => (r2, v2, none)

/-! ## Claims at the response boundary -/

theorem writeHeader_headers (w : ResponseWriter) (s : Int) :
    (writeHeader w s).headers = w.headers := by
  unfold writeHeader
  cases w.status <;> rfl

theorem writeHeader_status_none (w : ResponseWriter) (s : Int) (hw : w.status = none) :
    (writeHeader w s).status = some s := by
  unfold writeHeader
  rw [hw]

theorem hget_hset_self (hs : List (String × String)) (k v : String) :
    hget (hset hs k v) k = some v := by
  unfold hget hset
  induction hs with
  | nil =>
    simp [List.find?]
  | cons p rest ih =>
    by_cases hpk : (p.1 == k) = true
    · have hb : (p.1 != k) = false := by simp [bne, hpk]
      rw [List.filter_cons, hb]
      simpa using ih
    · have hpk0 : (p.1 == k) = false := by revert hpk; cases p.1 == k <;> simp
      have hb : (p.1 != k) = true := by simp [bne, hpk0]
      rw [List.filter_cons, hb]
      simp only [if_pos rfl, List.cons_append, List.find?, hpk0]
      exact ih

theorem hget_hset_ne (hs : List (String × String)) (k v k2 : String)
    (h : (k2 == k) = false) : hget (hset hs k v) k2 = hget hs k2 := by
  have hk2 : (k == k2) = false := by
    cases hc : k == k2
    · rfl
    · exfalso
      have hkk : k = k2 := beq_iff_eq.mp hc
      subst hkk
      simp at h
  unfold hget hset
  induction hs with
  | nil =>
    simp [List.find?, hk2]
  | cons p rest ih =>
    by_cases hpk : (p.1 == k) = true
    · have hp2 : (p.1 == k2) = false := by
        have hp : p.1 = k := beq_iff_eq.mp hpk
        rw [hp]
        exact hk2
      have hb : (p.1 != k) = false := by simp [bne, hpk]
      rw [List.filter_cons, hb]
      simp only [if_neg (by decide : ¬(false = true)), List.find?, hp2]
      exact ih
    · have hpk0 : (p.1 == k) = false := by revert hpk; cases p.1 == k <;> simp
      have hb : (p.1 != k) = true := by simp [bne, hpk0]
      rw [List.filter_cons, hb]
      by_cases hp2 : (p.1 == k2) = true
      · simp only [if_pos rfl, List.cons_append, List.find?, hp2]
      · have hp20 : (p.1 == k2) = false := by revert hp2; cases p.1 == k2 <;> simp
        simp only [if_pos rfl, List.cons_append, List.find?, hp20]
        exact ih

/-- C2 (amended): for a `*fnerrors.Error` the client receives the JSON error
envelope of its message together with its own status; for any other error
the status is 500 and the body is the error's own message text followed by a
newline — which is not in general a JSON envelope. -/
theorem WriteErr_spec (w : ResponseWriter) (err : GoError) (hw : w.status = none) :
    (∀ e : Error, err = .fnError e →
      (WriteErr w err).status = some e.status
      ∧ (WriteErr w err).body = w.body ++ JSONResponse e ++ "\n"
      ∧ parseEnvelope (JSONResponse e) = some e.msg)
    ∧ (∀ m : String, err = .generic m →
      (WriteErr w err).status = some 500
      ∧ (WriteErr w err).body = w.body ++ m ++ "\n") := by
  constructor
  · rintro e rfl
    refine ⟨?_, ?_, ?_⟩
    · simp [WriteErr, writeHeader, fprintLine, hw]
    · simp [WriteErr, writeHeader, fprintLine, hw]
    · unfold JSONResponse jsonMarshalHTTPResponse
      exact parseEnvelope_marshal e.msg
  · rintro m rfl
    constructor
    · simp [WriteErr, writeHeader, fprintLine, hw]
    · simp [WriteErr, errText, writeHeader, fprintLine, hw]

/-- Witness for C2 (amended) at concrete errors. -/
theorem WriteErr_spec_witness :
    ((WriteErr ⟨[], none, ""⟩ (GoError.fnError ⟨404, "nf", ""⟩)).status = some 404
      ∧ (WriteErr ⟨[], none, ""⟩ (GoError.fnError ⟨404, "nf", ""⟩)).body
          = "" ++ JSONResponse ⟨404, "nf", ""⟩ ++ "\n"
      ∧ parseEnvelope (JSONResponse ⟨404, "nf", ""⟩) = some "nf")
    ∧ ((WriteErr ⟨[], none, ""⟩ (GoError.generic "x")).status = some 500
      ∧ (WriteErr ⟨[], none, ""⟩ (GoError.generic "x")).body = "" ++ "x" ++ "\n") :=
  ⟨(WriteErr_spec ⟨[], none, ""⟩ (GoError.fnError ⟨404, "nf", ""⟩) rfl).1 ⟨404, "nf", ""⟩ rfl,
   (WriteErr_spec ⟨[], none, ""⟩ (GoError.generic "x") rfl).2 "x" rfl⟩

/-- Counterexample to C2 as stated: a non-AppError reaching `WriteErr` is
written as its raw text, not as a JSON error envelope. -/
theorem WriteErr_nonJSON_counterexample :
    WriteErr ⟨[], none, ""⟩ (GoError.generic "boom")
      = { headers := [], status := some 500, body := "boom\n" }
    ∧ parseEnvelope "boom" = none := by
  refine ⟨rfl, ?_⟩
  decide

/-- C10: `HandleOptionsRequestAndCORS` always sets the wildcard
`Access-Control-Allow-Origin: *` together with
`Access-Control-Allow-Credentials: true`, independently of the request
beyond its method; it returns `true` and writes status 204 exactly when the
method is OPTIONS, and returns `false` writing no status otherwise. -/
theorem HandleOptionsRequestAndCORS_spec (w : ResponseWriter) (r : Request)
    (hw : w.status = none) :
    hget (HandleOptionsRequestAndCORS w r).1.headers "Access-Control-Allow-Origin"
        = some "*"
    ∧ hget (HandleOptionsRequestAndCORS w r).1.headers "Access-Control-Allow-Credentials"
        = some "true"
    ∧ (r.method = "OPTIONS" →
        (HandleOptionsRequestAndCORS w r).2 = true
        ∧ (HandleOptionsRequestAndCORS w r).1.status = some 204)
    ∧ (¬r.method = "OPTIONS" →
        (HandleOptionsRequestAndCORS w r).2 = false
        ∧ (HandleOptionsRequestAndCORS w r).1.status = none)
    ∧ (∀ r2 : Request, r2.method = r.method →
        HandleOptionsRequestAndCORS w r2 = HandleOptionsRequestAndCORS w r) := by
  by_cases hm : r.method = "OPTIONS"
  · have h1 : (HandleOptionsRequestAndCORS w r).1
        = writeHeader (hsetW (hsetW (hsetW (hsetW (hsetW w
            "Access-Control-Allow-Credentials" "true")
            "Access-Control-Allow-Headers" "*")
            "Access-Control-Allow-Methods" "*")
            "Access-Control-Allow-Origin" "*")
            "Access-Control-Max-Age" "3600") 204 := by
      unfold HandleOptionsRequestAndCORS
      rw [if_pos hm]
    have h2 : (HandleOptionsRequestAndCORS w r).2 = true := by
      unfold HandleOptionsRequestAndCORS
      rw [if_pos hm]
    refine ⟨?_, ?_, fun _ => ⟨h2, ?_⟩, fun hc => absurd hm hc, fun r2 hr2 => ?_⟩
    · rw [h1, writeHeader_headers]
      simp only [hsetW]
      rw [hget_hset_ne _ _ _ _ (by decide), hget_hset_self]
    · rw [h1, writeHeader_headers]
      simp only [hsetW]
      rw [hget_hset_ne _ _ _ _ (by decide), hget_hset_ne _ _ _ _ (by decide),
        hget_hset_ne _ _ _ _ (by decide), hget_hset_ne _ _ _ _ (by decide),
        hget_hset_self]
    · rw [h1]
      exact writeHeader_status_none _ _ (by simp [hsetW, hw])
    · unfold HandleOptionsRequestAndCORS
      rw [hr2]
  · have h1 : (HandleOptionsRequestAndCORS w r).1
        = hsetW (hsetW w "Access-Control-Allow-Credentials" "true")
            "Access-Control-Allow-Origin" "*" := by
      unfold HandleOptionsRequestAndCORS
      rw [if_neg hm]
    have h2 : (HandleOptionsRequestAndCORS w r).2 = false := by
      unfold HandleOptionsRequestAndCORS
      rw [if_neg hm]
    refine ⟨?_, ?_, fun hc => absurd hc hm, fun _ => ⟨h2, ?_⟩, fun r2 hr2 => ?_⟩
    · rw [h1]
      simp only [hsetW]
      rw [hget_hset_self]
    · rw [h1]
      simp only [hsetW]
      rw [hget_hset_ne _ _ _ _ (by decide), hget_hset_self]
    · rw [h1]
      simp [hsetW, hw]
    · unfold HandleOptionsRequestAndCORS
      rw [hr2]

/-- Witness for C10 at a concrete writer and requests of both methods. -/
theorem HandleOptionsRequestAndCORS_spec_witness :
    (hget (HandleOptionsRequestAndCORS ⟨[], none, ""⟩
        ⟨"OPTIONS", [], ⟨"", none, false⟩⟩).1.headers "Access-Control-Allow-Origin"
      = some "*")
    ∧ (hget (HandleOptionsRequestAndCORS ⟨[], none, ""⟩
        ⟨"GET", [], ⟨"", none, false⟩⟩).1.headers "Access-Control-Allow-Credentials"
      = some "true") :=
  ⟨(HandleOptionsRequestAndCORS_spec ⟨[], none, ""⟩
      ⟨"OPTIONS", [], ⟨"", none, false⟩⟩ rfl).1,
   (HandleOptionsRequestAndCORS_spec ⟨[], none, ""⟩
      ⟨"GET", [], ⟨"", none, false⟩⟩ rfl).2.1⟩

/-! ## CORS claims -/

theorem mem_mapInsert (m : List String) (k x : String) :
    x ∈ mapInsert m k ↔ x ∈ m ∨ x = k := by
  unfold mapInsert
  by_cases h : m.contains k
  · rw [if_pos h]
    constructor
    · exact Or.inl
    · rintro (hx | rfl)
      · exact hx
      · exact List.elem_iff.mp h
  · rw [if_neg h]
    simp

theorem nodup_mapInsert (m : List String) (k : String) (h : m.Nodup) :
    (mapInsert m k).Nodup := by
  unfold mapInsert
  by_cases hc : m.contains k
  · rw [if_pos hc]
    exact h
  · rw [if_neg hc]
    rw [← List.concat_eq_append]
    exact List.Nodup.concat (fun hm => hc (List.elem_iff.mpr hm)) h

theorem corsLoop_cache (reqO : String) (origins : List String) :
    ∀ (origin : String) (cache : List String),
      (∀ k ∈ cache, k ∈ (corsLoop reqO origins origin cache).2)
      ∧ (∀ k ∈ (corsLoop reqO origins origin cache).2,
          k ∈ cache ∨ (k = reqO ∧ ∃ o ∈ origins, strContains reqO o = true))
      ∧ (cache.Nodup → (corsLoop reqO origins origin cache).2.Nodup) := by
  induction origins with
  | nil =>
    intro origin cache
    refine ⟨fun k hk => hk, fun k hk => Or.inl hk, fun h => h⟩
  | cons a rest ih =>
    intro origin cache
    by_cases hc : strContains reqO a = true
    · rw [corsLoop, if_pos hc]
      obtain ⟨ih1, ih2, ih3⟩ := ih reqO (mapInsert cache reqO)
      refine ⟨?_, ?_, ?_⟩
      · intro k hk
        exact ih1 k ((mem_mapInsert cache reqO k).mpr (Or.inl hk))
      · intro k hk
        rcases ih2 k hk with hmem | ⟨rfl, o, ho, hso⟩
        · rcases (mem_mapInsert cache reqO k).mp hmem with hk2 | rfl
          · exact Or.inl hk2
          · exact Or.inr ⟨rfl, a, List.mem_cons_self a rest, hc⟩
        · exact Or.inr ⟨rfl, o, List.mem_cons_of_mem a ho, hso⟩
      · intro hn
        exact ih3 (nodup_mapInsert cache reqO hn)
    · rw [corsLoop, if_neg hc]
      obtain ⟨ih1, ih2, ih3⟩ := ih origin cache
      refine ⟨ih1, ?_, ih3⟩
      intro k hk
      rcases ih2 k hk with hmem | ⟨rfl, o, ho, hso⟩
      · exact Or.inl hmem
      · exact Or.inr ⟨rfl, o, List.mem_cons_of_mem a ho, hso⟩

/-- C8: `CORSMiddleware` panics exactly when the configured origin list is
empty, leaving the writer untouched at the panic point; with at least one
configured origin every request yields a normal result. -/
theorem CORSMiddleware_empty_panics (fn : FnHttper) (w : ResponseWriter) (r : Request) :
    (fn.CORSOrigins = [] →
      CORSMiddleware fn w r = .panicked "fnhttp: missing allowed cors origins" w)
    ∧ (fn.CORSOrigins ≠ [] →
      ∃ fn2 w2 b, CORSMiddleware fn w r = .ok fn2 w2 b) := by
  constructor
  · intro h
    unfold CORSMiddleware
    rw [h]
  · intro h
    match hc : fn.CORSOrigins with
    | [] => exact absurd hc h
    | first :: rest =>
      unfold CORSMiddleware
      rw [hc]
      dsimp only []
      by_cases hm : r.method = "OPTIONS"
      · rw [if_pos hm]
        exact ⟨_, _, _, rfl⟩
      · rw [if_neg hm]
        exact ⟨_, _, _, rfl⟩

/-- Witness for C8: the panic on an empty origin list and the normal result
with one configured origin, at concrete values. -/
theorem CORSMiddleware_empty_panics_witness :
    (CORSMiddleware ⟨[], []⟩ ⟨[], none, ""⟩ ⟨"GET", [], ⟨"", none, false⟩⟩
      = .panicked "fnhttp: missing allowed cors origins" ⟨[], none, ""⟩)
    ∧ (∃ fn2 w2 b,
        CORSMiddleware ⟨["a.com"], []⟩ ⟨[], none, ""⟩ ⟨"GET", [], ⟨"", none, false⟩⟩
          = .ok fn2 w2 b) :=
  ⟨(CORSMiddleware_empty_panics ⟨[], []⟩ ⟨[], none, ""⟩ ⟨"GET", [], ⟨"", none, false⟩⟩).1 rfl,
   (CORSMiddleware_empty_panics ⟨["a.com"], []⟩ ⟨[], none, ""⟩
      ⟨"GET", [], ⟨"", none, false⟩⟩).2 (by decide)⟩

/-- C9: on every normal return of `CORSMiddleware` the configured origins
are unchanged, the cache only grows (no key is removed, and set semantics
rule out duplicates), every new key is the request's Origin header and
contains some configured origin as a substring, and the containment
invariant on all cache keys is preserved. -/
theorem CORSMiddleware_cache_invariant (fn : FnHttper) (w : ResponseWriter) (r : Request)
    (fn2 : FnHttper) (w2 : ResponseWriter) (b : Bool)
    (hok : CORSMiddleware fn w r = .ok fn2 w2 b) :
    fn2.CORSOrigins = fn.CORSOrigins
    ∧ (∀ k ∈ fn.corsOrigins, k ∈ fn2.corsOrigins)
    ∧ (∀ k ∈ fn2.corsOrigins, k ∈ fn.corsOrigins
        ∨ (k = headerGet r.headers "Origin"
          ∧ ∃ o ∈ fn.CORSOrigins, strContains k o = true))
    ∧ ((∀ k ∈ fn.corsOrigins, ∃ o ∈ fn.CORSOrigins, strContains k o = true) →
        ∀ k ∈ fn2.corsOrigins, ∃ o ∈ fn2.CORSOrigins, strContains k o = true)
    ∧ (fn.corsOrigins.Nodup → fn2.corsOrigins.Nodup) := by
  have hfn2 : fn2.CORSOrigins = fn.CORSOrigins
      ∧ fn2.corsOrigins = (corsLoop (headerGet r.headers "Origin") fn.CORSOrigins
          (if fn.corsOrigins.contains (headerGet r.headers "Origin")
           then headerGet r.headers "Origin"
           else fn.CORSOrigins.headD "") fn.corsOrigins).2 := by
    match hc : fn.CORSOrigins with
    | [] =>
      unfold CORSMiddleware at hok
      rw [hc] at hok
      exact absurd hok (by simp)
    | first :: rest =>
      unfold CORSMiddleware at hok
      rw [hc] at hok
      dsimp only [] at hok
      by_cases hm : r.method = "OPTIONS"
      · rw [if_pos hm] at hok
        cases hok
        exact ⟨rfl, rfl⟩
      · rw [if_neg hm] at hok
        cases hok
        exact ⟨rfl, rfl⟩
  obtain ⟨hO, hcache⟩ := hfn2
  obtain ⟨l1, l2, l3⟩ := corsLoop_cache (headerGet r.headers "Origin") fn.CORSOrigins
    (if fn.corsOrigins.contains (headerGet r.headers "Origin")
     then headerGet r.headers "Origin"
     else fn.CORSOrigins.headD "") fn.corsOrigins
  refine ⟨hO, ?_, ?_, ?_, ?_⟩
  · intro k hk
    rw [hcache]
    exact l1 k hk
  · intro k hk
    rw [hcache] at hk
    rcases l2 k hk with hmem | ⟨rfl, o, ho, hso⟩
    · exact Or.inl hmem
    · exact Or.inr ⟨rfl, o, ho, hso⟩
  · intro hinv k hk
    rw [hcache] at hk
    rw [hO]
    rcases l2 k hk with hmem | ⟨rfl, o, ho, hso⟩
    · exact hinv k hmem
    · exact ⟨o, ho, hso⟩
  · intro hn
    rw [hcache]
    exact l3 hn

/-- Witness for C9 at a concrete call. -/
theorem CORSMiddleware_cache_invariant_witness :
    (⟨["a.com"], ["sub.a.com"]⟩ : FnHttper).CORSOrigins
        = (⟨["a.com"], []⟩ : FnHttper).CORSOrigins
    ∧ (∀ k ∈ (⟨["a.com"], []⟩ : FnHttper).corsOrigins,
        k ∈ (⟨["a.com"], ["sub.a.com"]⟩ : FnHttper).corsOrigins)
    ∧ (∀ k ∈ (⟨["a.com"], ["sub.a.com"]⟩ : FnHttper).corsOrigins,
        k ∈ (⟨["a.com"], []⟩ : FnHttper).corsOrigins
        ∨ (k = headerGet [("Origin", "sub.a.com")] "Origin"
          ∧ ∃ o ∈ (⟨["a.com"], []⟩ : FnHttper).CORSOrigins, strContains k o = true))
    ∧ ((∀ k ∈ (⟨["a.com"], []⟩ : FnHttper).corsOrigins,
          ∃ o ∈ (⟨["a.com"], []⟩ : FnHttper).CORSOrigins, strContains k o = true) →
        ∀ k ∈ (⟨["a.com"], ["sub.a.com"]⟩ : FnHttper).corsOrigins,
          ∃ o ∈ (⟨["a.com"], ["sub.a.com"]⟩ : FnHttper).CORSOrigins, strContains k o = true)
    ∧ ((⟨["a.com"], []⟩ : FnHttper).corsOrigins.Nodup →
        (⟨["a.com"], ["sub.a.com"]⟩ : FnHttper).corsOrigins.Nodup) :=
  CORSMiddleware_cache_invariant ⟨["a.com"], []⟩ ⟨[], none, ""⟩
    ⟨"GET", [("Origin", "sub.a.com")], ⟨"", none, false⟩⟩
    ⟨["a.com"], ["sub.a.com"]⟩
    ⟨[("Access-Control-Allow-Credentials", "true"),
      ("Access-Control-Allow-Headers", "*"),
      ("Access-Control-Allow-Methods", "GET, POST, PUT, DELETE, PATCH, OPTIONS"),
      ("Access-Control-Allow-Origin", "sub.a.com"),
      ("Access-Control-Max-Age", "3600"),
      ("Vary", "Origin")], none, ""⟩
    false (by decide)

/-- C4: with `CORSOrigins = ["a.com"]` and request Origin `sub.a.com`, the
middleware echoes `sub.a.com` in `Access-Control-Allow-Origin` and memoizes
it in the cache; a second identical request finds the cached exact match and
produces the identical headers. -/
theorem CORSMiddleware_substring_scenario :
    (CORSMiddleware ⟨["a.com"], []⟩ ⟨[], none, ""⟩
        ⟨"GET", [("Origin", "sub.a.com")], ⟨"", none, false⟩⟩
      = .ok ⟨["a.com"], ["sub.a.com"]⟩
          ⟨[("Access-Control-Allow-Credentials", "true"),
            ("Access-Control-Allow-Headers", "*"),
            ("Access-Control-Allow-Methods", "GET, POST, PUT, DELETE, PATCH, OPTIONS"),
            ("Access-Control-Allow-Origin", "sub.a.com"),
            ("Access-Control-Max-Age", "3600"),
            ("Vary", "Origin")], none, ""⟩ false)
    ∧ (List.contains ["sub.a.com"] "sub.a.com" = true)
    ∧ (CORSMiddleware ⟨["a.com"], ["sub.a.com"]⟩ ⟨[], none, ""⟩
        ⟨"GET", [("Origin", "sub.a.com")], ⟨"", none, false⟩⟩
      = .ok ⟨["a.com"], ["sub.a.com"]⟩
          ⟨[("Access-Control-Allow-Credentials", "true"),
            ("Access-Control-Allow-Headers", "*"),
            ("Access-Control-Allow-Methods", "GET, POST, PUT, DELETE, PATCH, OPTIONS"),
            ("Access-Control-Allow-Origin", "sub.a.com"),
            ("Access-Control-Max-Age", "3600"),
            ("Vary", "Origin")], none, ""⟩ false) := by
  refine ⟨?_, ?_, ?_⟩ <;> decide

/-! ## Request body decoding claims -/

/-- A trivial payload codec over `Unit` for concrete instantiations: no
binary capability, a JSON decoder that accepts anything, no fields. -/
def unitCodec : Codec Unit :=
  { binaryUnmarshal := none
    jsonUnmarshal := fun _ v => .ok v
    reflectFields := fun _ => [] }

/-- A request with an empty, open body. -/
def emptyBodyReq : Request :=
  { method := "POST", headers := [], body := { data := "", readErr := none, closed := false } }

/-- C5 (amended): on an empty request body, `GetPostData` returns an
AppError with status 400 and message `bad request: missing http body`
(the `"bad request"` prefix wrapping the cause `missing http body`), leaves
the target untouched, and leaves the request holding its original,
now-closed body. -/
theorem GetPostData_empty_body {α : Type} (c : Codec α) (r : Request) (v : α)
    (hb : r.body = ⟨"", none, false⟩) :
    GetPostData c r v
      = ({ r with body := ⟨"", none, true⟩ }, v,
         some (.fnError ⟨400, "bad request: missing http body", ""⟩)) := by
  unfold GetPostData
  rw [hb]
  rfl

/-- Witness for C5 (amended) at a concrete request. -/
theorem GetPostData_empty_body_witness :
    GetPostData unitCodec emptyBodyReq ()
      = ({ emptyBodyReq with body := ⟨"", none, true⟩ }, (),
         some (.fnError ⟨400, "bad request: missing http body", ""⟩)) :=
  GetPostData_empty_body unitCodec emptyBodyReq () rfl

/-- Counterexample to C5 as stated: the error message is
`bad request: missing http body`, not `missing body`. -/
theorem GetPostData_message_counterexample :
    (GetPostData unitCodec emptyBodyReq ()).2.2
      = some (.fnError ⟨400, "bad request: missing http body", ""⟩)
    ∧ "bad request: missing http body" ≠ "missing body" := by
  refine ⟨rfl, ?_⟩
  decide

theorem GetPostData_fst_nonempty {α : Type} (c : Codec α) (r : Request) (v : α)
    (hclosed : r.body.closed = false) (herr : r.body.readErr = none)
    (hne : ¬r.body.data.length = 0) :
    (GetPostData c r v).1 = { r with body := ⟨r.body.data, none, false⟩ } := by
  have hread : ioReadAll r.body = .ok (r.body.data, (⟨"", none, false⟩ : Body)) := by
    unfold ioReadAll
    rw [hclosed, herr]
    rfl
  unfold GetPostData
  dsimp only []
  rw [hread]
  simp only []
  rw [if_neg hne]
  cases hbu : c.binaryUnmarshal with
  | some bu =>
    simp only []
    cases hurs : bu r.body.data v with
    | error e => rfl
    | ok v2 =>
      simp only []
      cases hcf : checkRequiredFields (c.reflectFields v2) with
      | some m => rfl
      | none => rfl
  | none =>
    simp only []
    cases hurs : c.jsonUnmarshal r.body.data v with
    | error e => rfl
    | ok v2 =>
      simp only []
      cases hcf : checkRequiredFields (c.reflectFields v2) with
      | some m => rfl
      | none => rfl

/-- C6 (amended): whenever the body read succeeds and the body is
non-empty, after `GetPostData` the request's body is an open buffer holding
exactly the consumed bytes, and reading it again yields those bytes.  (When
the body is empty or the read fails, the function returns before
re-buffering and the deferred `Close` leaves the request with a closed
body.) -/
theorem GetPostData_body_readable {α : Type} (c : Codec α) (r : Request) (v : α)
    (hclosed : r.body.closed = false) (herr : r.body.readErr = none)
    (hne : ¬r.body.data.length = 0) :
    (GetPostData c r v).1.body = ⟨r.body.data, none, false⟩
    ∧ ioReadAll (GetPostData c r v).1.body = .ok (r.body.data, ⟨"", none, false⟩) := by
  have h1 := GetPostData_fst_nonempty c r v hclosed herr hne
  constructor
  · rw [h1]
  · rw [h1]
    rfl

/-- Witness for C6 (amended) at a concrete non-empty body. -/
theorem GetPostData_body_readable_witness :
    (GetPostData unitCodec ⟨"POST", [], ⟨"x", none, false⟩⟩ ()).1.body
        = ⟨(⟨"POST", [], ⟨"x", none, false⟩⟩ : Request).body.data, none, false⟩
    ∧ ioReadAll (GetPostData unitCodec ⟨"POST", [], ⟨"x", none, false⟩⟩ ()).1.body
        = .ok ((⟨"POST", [], ⟨"x", none, false⟩⟩ : Request).body.data, ⟨"", none, false⟩) :=
  GetPostData_body_readable unitCodec ⟨"POST", [], ⟨"x", none, false⟩⟩ ()
    rfl rfl (by decide)

/-- Counterexample to C6 as stated: on an empty body the request is left
with a closed body, which cannot be read again. -/
theorem GetPostData_closed_counterexample :
    (GetPostData unitCodec emptyBodyReq ()).1.body.closed = true
    ∧ ioReadAll (GetPostData unitCodec emptyBodyReq ()).1.body
        = .error "http: invalid Read on closed Body" :=
  ⟨rfl, rfl⟩

end Cloudfn
